import Mathlib

/-!
Verification development for the chess-analysis scripts.

The repository has two source files:
* the analyzer script (fetches a player's monthly game archives from the
  chess.com API, identifies the opening of each game by probing an
  EPD-keyed lookup table, and aggregates per-opening win statistics), and
* `scripts/generate-data.ts` (builds the EPD lookup table and related
  indexes from the lichess opening TSV files).

This file gives a shallow embedding of both scripts.  External
capabilities (the chess.js move-replay engine, HTTP responses, the JSON
lookup table) are passed in as explicit function or structure arguments.
JavaScript string operations (`split`, `join`, `toLowerCase`, …) are
re-implemented at the character-list level so that their exact semantics
(empty pieces, single-character separators) are preserved.
-/

/-- JavaScript `s.split(sep)` for a single-character separator, on
character lists.  Splitting the empty string yields `[[]]` (JS returns
`[""]`), and consecutive separators yield empty pieces. -/
def splitCh (sep : Char) : List Char → List (List Char)
  | [] => [[]]
  | c :: cs =>
    if c = sep then [] :: splitCh sep cs
    else
      match splitCh sep cs with
      | [] => [[c]]
      | p :: ps => (c :: p) :: ps

/-- JavaScript `parts.join(sep)` for a single-character separator, on
character lists. -/
def joinCh (sep : Char) : List (List Char) → List Char
  | [] => []
  | [p] => p
  | p :: ps => p ++ sep :: joinCh sep ps

/-- JavaScript `s.split(sep)` on Lean strings. -/
def jsSplit (sep : Char) (s : String) : List String :=
  (splitCh sep s.data).map String.mk

/-- JavaScript `parts.join(sep)` on Lean strings. -/
def jsJoin (sep : Char) (parts : List String) : String :=
  String.mk (joinCh sep (parts.map String.data))

/-- JavaScript `s.toLowerCase()` (character-wise lowercasing). -/
def jsToLower (s : String) : String :=
  String.mk (s.data.map Char.toLower)

/-- JavaScript `s.toUpperCase()` (character-wise uppercasing). -/
def jsToUpper (s : String) : String :=
  String.mk (s.data.map Char.toUpper)

/-- JavaScript `s.charAt(0)`: the first character as a one-character
string, or `""` when `s` is empty. -/
def charAt0 (s : String) : String :=
  match s.data with
  | [] => ""
  | c :: _ => String.mk [c]

/-- `fen.split(" ").slice(0, 4).join(" ")`: the 4-field EPD key (board,
side to move, castling rights, en-passant square) of a FEN string.  This
expression appears verbatim both in `identifyOpening` and in the
data-generation script. -/
def epdOfFen (fen : String) : String :=
  jsJoin ' ' ((jsSplit ' ' fen).take 4)

/-- The `OpeningData` record emitted by the data-generation script and
consumed by the analyzer. -/
structure OpeningData where
  eco : String
  name : String
  pgn : String
  epd : String
  uci : String
deriving DecidableEq

/-- One verbose history entry of the chess.js replay engine: the moved
piece's from/to squares, the optional promotion letter, and the FEN of
the position after the move.  Only these fields are read by the
scripts. -/
structure Move where
  fromSq : String
  toSq : String
  promotion : Option String
  after : String

/-- The chess.js capability used by both scripts: `history` is
`loadPgn(pgn); history({verbose: true})`, and `fen` is
`loadPgn(pgn); fen()`. -/
structure ChessEngine where
  history : String → List Move
  fen : String → String

/-- The backward scan of `identifyOpening`, iterating over the reversed
history: the source's `while (!result)` loop reads the last history
entry, probes the lookup, and pops, which visits exactly the reversed
list. -/
def scanRev (lookup : String → Option OpeningData) : List Move → Option OpeningData
  | [] => none
  | m :: ms =>
    match lookup (epdOfFen m.after) with
    | some r => some r
    | none => scanRev lookup ms

/-- `identifyOpening(pgn)`: `null` for an empty pgn, otherwise the
backward scan over the replayed history.  The `epdLookup` JSON table is
passed as the `lookup` argument. -/
def identifyOpening (engine : ChessEngine) (lookup : String → Option OpeningData)
    (pgn : String) : Option OpeningData :=
  if pgn = "" then none
  else scanRev lookup (engine.history pgn).reverse

/-- The EPD codes of the positions reached after each ply of `pgn`, in
ply order (the codes `identifyOpening` probes). -/
def plyEpds (engine : ChessEngine) (pgn : String) : List String :=
  (engine.history pgn).map (fun m => epdOfFen m.after)

/-- The backward scan expressed directly on a list of EPD codes. -/
def firstHit (lookup : String → Option OpeningData) : List String → Option OpeningData
  | [] => none
  | e :: es =>
    match lookup e with
    | some r => some r
    | none => firstHit lookup es

theorem scanRev_eq_firstHit (lookup : String → Option OpeningData) (ms : List Move) :
    scanRev lookup ms = firstHit lookup (ms.map (fun m => epdOfFen m.after)) := by
  induction ms with
  | nil => rfl
  | cons m ms ih =>
    simp only [scanRev, firstHit, List.map_cons]
    cases lookup (epdOfFen m.after) <;> simp [ih]

theorem firstHit_eq_none_iff (lookup : String → Option OpeningData) (l : List String) :
    firstHit lookup l = none ↔ ∀ e ∈ l, lookup e = none := by
  induction l with
  | nil => simp [firstHit]
  | cons e es ih =>
    simp only [firstHit]
    cases h : lookup e with
    | some r => simp [h]
    | none => simp [h, ih]

theorem firstHit_reverse_eq_some_iff (lookup : String → Option OpeningData)
    (l : List String) (r : OpeningData) :
    firstHit lookup l.reverse = some r ↔
      ∃ i, i < l.length ∧ lookup (l.getD i "") = some r ∧
        ∀ j, i < j → j < l.length → lookup (l.getD j "") = none := by
  have getD_last : ∀ (init : List String) (e : String),
      (init ++ [e]).getD init.length "" = e := by
    intro init e
    rw [List.getD_eq_getElem?_getD, List.getElem?_concat_length]
    rfl
  have getD_left : ∀ (init : List String) (e : String) (i : ℕ), i < init.length →
      (init ++ [e]).getD i "" = init.getD i "" := by
    intro init e i hi
    rw [List.getD_eq_getElem?_getD, List.getD_eq_getElem?_getD,
      List.getElem?_append_left hi]
  induction l using List.reverseRecOn with
  | nil => simp [firstHit]
  | append_singleton init e ih =>
    rw [List.reverse_append]
    simp only [List.reverse_singleton, List.singleton_append, firstHit]
    cases h : lookup e with
    | some r0 =>
      show some r0 = some r ↔ _
      constructor
      · rintro ⟨rfl⟩
        refine ⟨init.length, by simp, ?_, ?_⟩
        · rw [getD_last]
          exact h
        · intro j hj hj'
          simp at hj'
          omega
      · rintro ⟨i, hi, hhit, htail⟩
        simp at hi
        rcases Nat.lt_or_ge i init.length with hlt | hge
        · exfalso
          have := htail init.length hlt (by simp)
          rw [getD_last] at this
          rw [h] at this
          exact Option.noConfusion this
        · have : i = init.length := by omega
          subst this
          rw [getD_last] at hhit
          rw [h] at hhit
          exact hhit
    | none =>
      refine Iff.trans (show firstHit lookup init.reverse = some r ↔ _ from ih) ?_
      constructor
      · rintro ⟨i, hi, hhit, htail⟩
        refine ⟨i, by simp; omega, ?_, ?_⟩
        · rwa [getD_left _ _ _ hi]
        · intro j hj hj'
          simp at hj'
          rcases Nat.lt_or_ge j init.length with hlt | hge
          · rw [getD_left _ _ _ hlt]
            exact htail j hj hlt
          · have : j = init.length := by omega
            subst this
            rw [getD_last]
            exact h
      · rintro ⟨i, hi, hhit, htail⟩
        simp at hi
        rcases Nat.lt_or_ge i init.length with hlt | hge
        · refine ⟨i, hlt, ?_, ?_⟩
          · rwa [getD_left _ _ _ hlt] at hhit
          · intro j hj hj'
            have := htail j hj (by simp; omega)
            rwa [getD_left _ _ _ hj'] at this
        · exfalso
          have : i = init.length := by omega
          subst this
          rw [getD_last] at hhit
          rw [h] at hhit
          exact Option.noConfusion hhit

/-- C1: for every move text, if the replayed position sequence contains a
position whose 4-field EPD code is in the index, `identifyOpening`
returns the record stored for the deepest such ply (first hit of the
backward scan); otherwise — including the empty move text and an empty
position sequence — it returns no match. -/
theorem identifyOpening_backward_scan (engine : ChessEngine)
    (lookup : String → Option OpeningData) (pgn : String) :
    identifyOpening engine lookup "" = none ∧
    (identifyOpening engine lookup pgn = none ↔
      pgn = "" ∨ ∀ e ∈ plyEpds engine pgn, lookup e = none) ∧
    (∀ r, identifyOpening engine lookup pgn = some r ↔
      pgn ≠ "" ∧ ∃ i, i < (plyEpds engine pgn).length ∧
        lookup ((plyEpds engine pgn).getD i "") = some r ∧
        ∀ j, i < j → j < (plyEpds engine pgn).length →
          lookup ((plyEpds engine pgn).getD j "") = none) := by
  have key : ∀ q : String, q ≠ "" →
      identifyOpening engine lookup q = firstHit lookup (plyEpds engine q).reverse := by
    intro q hq
    rw [identifyOpening, if_neg hq, scanRev_eq_firstHit, plyEpds, List.map_reverse]
  refine ⟨by simp [identifyOpening], ?_, ?_⟩
  · by_cases hpgn : pgn = ""
    · simp [hpgn, identifyOpening]
    · rw [key pgn hpgn, firstHit_eq_none_iff]
      constructor
      · intro h
        exact Or.inr (fun e he => h e (List.mem_reverse.mpr he))
      · rintro (hc | hall)
        · exact absurd hc hpgn
        · intro e he
          exact hall e (List.mem_reverse.mp he)
  · intro r
    by_cases hpgn : pgn = ""
    · simp [hpgn, identifyOpening]
    · rw [key pgn hpgn, firstHit_reverse_eq_some_iff]
      constructor
      · intro h
        exact ⟨hpgn, h⟩
      · intro h
        exact h.2

/-- One side of a fetched game (`playerSchema`): rating, raw result
string, `@id` URL, username, uuid. -/
structure Player where
  rating : ℚ
  result : String
  atId : String
  username : String
  uuid : String

/-- The optional `accuracies` object of a game. -/
structure Accuracies where
  white : ℚ
  black : ℚ

/-- A fetched game (`gameSchema`). -/
structure Game where
  url : String
  pgn : String
  time_control : String
  end_time : ℚ
  rated : Bool
  tcn : Option String
  uuid : String
  initial_setup : String
  fen : String
  time_class : String
  rules : String
  white : Player
  black : Player
  accuracies : Option Accuracies

/-- A game together with its identified opening
(`Game & { opening: OpeningData | null }`). -/
structure GameWithOpening extends Game where
  opening : Option OpeningData

/-- The per-opening statistics accumulator. -/
structure Stats where
  total : ℕ
  wins : ℕ
  losses : ℕ
  draws : ℕ
deriving DecidableEq

/-- `initialStats()`. -/
def initialStats : Stats := ⟨0, 0, 0, 0⟩

/-- The two player colors used as keys of `openingStats`. -/
inductive Color where
  | white
  | black
deriving DecidableEq

/-- `game[color]`: the side of the given color. -/
def sideOf (g : Game) : Color → Player
  | .white => g.white
  | .black => g.black

/-- `game.white.username.toLowerCase() === username.toLowerCase() ?
"white" : "black"`. -/
def playerColorOf (username : String) (g : Game) : Color :=
  if jsToLower g.white.username = jsToLower username then .white else .black

/-- `playerColor === "black" ? "white" : "black"`. -/
def opponentColorOf : Color → Color
  | .black => .white
  | .white => .black

/-- The three outcome buckets the analyzer sorts each game into. -/
inductive Outcome where
  | win
  | loss
  | draw
deriving DecidableEq

/-- The nested conditional computing `result` in `analyzeGames`: equal
result strings mean a draw, otherwise the analyzed side's `"win"` means
a win, and anything else a loss. -/
def outcomeOf (username : String) (g : Game) : Outcome :=
  let pc := playerColorOf username g
  let oc := opponentColorOf pc
  if (sideOf g pc).result = (sideOf g oc).result then .draw
  else if (sideOf g pc).result = "win" then .win
  else .loss

/-- The `total++` plus `switch (result)` counter update of
`analyzeGames`. -/
def recordOutcome (s : Stats) (o : Outcome) : Stats :=
  let s' : Stats := { s with total := s.total + 1 }
  match o with
  | .win => { s' with wins := s'.wins + 1 }
  | .loss => { s' with losses := s'.losses + 1 }
  | .draw => { s' with draws := s'.draws + 1 }

/-- Update of one color's `Record<string, Stats>`: create the entry with
`initialStats()` on first encounter (JS inserts new keys at the end of
the property order), then apply the counter update. -/
def bumpStats (m : List (String × Stats)) (name : String) (o : Outcome) :
    List (String × Stats) :=
  match m with
  | [] => [(name, recordOutcome initialStats o)]
  | (k, s) :: rest =>
    if k = name then (k, recordOutcome s o) :: rest
    else (k, s) :: bumpStats rest name o

/-- The `openingStats` accumulator of `analyzeGames`: one
insertion-ordered map of `Stats` per color. -/
structure OpeningStats where
  white : List (String × Stats)
  black : List (String × Stats)

/-- The map of the given color. -/
def statsAt (m : OpeningStats) : Color → List (String × Stats)
  | .white => m.white
  | .black => m.black

/-- The body of the `games.forEach` loop of `analyzeGames`: games with
no matched opening are skipped; otherwise the (color, opening-name)
bucket is updated with the game's outcome. -/
def analyzeStep (username : String) (acc : OpeningStats) (g : GameWithOpening) :
    OpeningStats :=
  match g.opening with
  | none => acc
  | some op =>
    match playerColorOf username g.toGame with
    | .white => { acc with white := bumpStats acc.white op.name (outcomeOf username g.toGame) }
    | .black => { acc with black := bumpStats acc.black op.name (outcomeOf username g.toGame) }

/-- The full `games.forEach` pass of `analyzeGames`. -/
def buildOpeningStats (username : String) (games : List GameWithOpening) :
    OpeningStats :=
  games.foldl (analyzeStep username) ⟨[], []⟩

/-- One element of the list built by `sortOpenings`. -/
structure RatedOpening where
  openingName : String
  stats : Stats
  winRate : ℚ

/-- `stats.total ? (stats.wins / stats.total) * 100 : 0`. -/
def winRateOf (s : Stats) : ℚ :=
  if s.total = 0 then 0 else ((s.wins : ℚ) / (s.total : ℚ)) * 100

/-- One insertion step of the stable descending sort modelling
`Array.prototype.sort((a, b) => b.winRate - a.winRate)`: the element is
placed before the first strictly smaller win rate, so equal win rates
keep their original relative order (JS sort is stable). -/
def insertByWinRate (e : RatedOpening) : List RatedOpening → List RatedOpening
  | [] => [e]
  | f :: fs =>
    if f.winRate < e.winRate then e :: f :: fs
    else f :: insertByWinRate e fs

/-- Stable sort by non-increasing win rate. -/
def sortByWinRateDesc : List RatedOpening → List RatedOpening
  | [] => []
  | e :: es => insertByWinRate e (sortByWinRateDesc es)

/-- `sortOpenings`: map each `(name, stats)` entry to a rated record,
keep those played more than 15 times, and sort by descending win
rate. -/
def sortOpenings (openingStats : List (String × Stats)) : List RatedOpening :=
  sortByWinRateDesc
    ((openingStats.map (fun p => ⟨p.1, p.2, winRateOf p.2⟩)).filter
      (fun e => decide (15 < e.stats.total)))

/-- The two top-10 lists returned by `analyzeGames` (the final
`.map(...)` to display strings is console formatting, out of scope for
this embedding; it is applied elementwise and does not change the list
structure). -/
structure AnalyzerOutput where
  white : List RatedOpening
  black : List RatedOpening

/-- `analyzeGames`: build the per-color stats, then
`sortOpenings(...).slice(0, 10)` for each color. -/
def analyzeGames (username : String) (games : List GameWithOpening) :
    AnalyzerOutput :=
  let os := buildOpeningStats username games
  ⟨(sortOpenings os.white).take 10, (sortOpenings os.black).take 10⟩

theorem mem_insertByWinRate {x e : RatedOpening} {l : List RatedOpening} :
    x ∈ insertByWinRate e l ↔ x = e ∨ x ∈ l := by
  induction l with
  | nil => simp [insertByWinRate]
  | cons f fs ih =>
    by_cases h : f.winRate < e.winRate
    · simp only [insertByWinRate, if_pos h, List.mem_cons]
    · simp only [insertByWinRate, if_neg h, List.mem_cons, ih]
      tauto

theorem mem_sortByWinRateDesc {x : RatedOpening} {l : List RatedOpening} :
    x ∈ sortByWinRateDesc l ↔ x ∈ l := by
  induction l with
  | nil => simp [sortByWinRateDesc]
  | cons e es ih =>
    simp [sortByWinRateDesc, mem_insertByWinRate, ih]

theorem pairwise_insertByWinRate {e : RatedOpening} {l : List RatedOpening}
    (h : l.Pairwise (fun a b => b.winRate ≤ a.winRate)) :
    (insertByWinRate e l).Pairwise (fun a b => b.winRate ≤ a.winRate) := by
  induction l with
  | nil => simp [insertByWinRate]
  | cons f fs ih =>
    simp only [insertByWinRate]
    rcases List.pairwise_cons.mp h with ⟨hf, hfs⟩
    by_cases hc : f.winRate < e.winRate
    · rw [if_pos hc]
      refine List.pairwise_cons.mpr ⟨?_, h⟩
      intro x hx
      rcases List.mem_cons.mp hx with rfl | hx
      · exact le_of_lt hc
      · exact le_trans (hf x hx) (le_of_lt hc)
    · rw [if_neg hc]
      refine List.pairwise_cons.mpr ⟨?_, ih hfs⟩
      intro x hx
      rcases mem_insertByWinRate.mp hx with rfl | hx
      · exact le_of_not_lt hc
      · exact hf x hx

theorem pairwise_sortByWinRateDesc (l : List RatedOpening) :
    (sortByWinRateDesc l).Pairwise (fun a b => b.winRate ≤ a.winRate) := by
  induction l with
  | nil => simp [sortByWinRateDesc]
  | cons e es ih => exact pairwise_insertByWinRate ih

theorem sortOpenings_mem_total {m : List (String × Stats)} {e : RatedOpening}
    (h : e ∈ sortOpenings m) : 15 < e.stats.total := by
  rw [sortOpenings, mem_sortByWinRateDesc] at h
  rcases List.mem_filter.mp h with ⟨_, hp⟩
  exact of_decide_eq_true hp

/-- C2: each color's output list of `analyzeGames` only contains
openings played more than 15 times, is ordered by non-increasing win
rate, and has at most 10 entries. -/
theorem analyzeGames_filter_sort_top10 (username : String)
    (games : List GameWithOpening) :
    ((analyzeGames username games).white.Forall (fun e => 15 < e.stats.total) ∧
      (analyzeGames username games).white.Pairwise (fun a b => b.winRate ≤ a.winRate) ∧
      (analyzeGames username games).white.length ≤ 10) ∧
    ((analyzeGames username games).black.Forall (fun e => 15 < e.stats.total) ∧
      (analyzeGames username games).black.Pairwise (fun a b => b.winRate ≤ a.winRate) ∧
      (analyzeGames username games).black.length ≤ 10) := by
  have key : ∀ m : List (String × Stats),
      ((sortOpenings m).take 10).Forall (fun e => 15 < e.stats.total) ∧
        ((sortOpenings m).take 10).Pairwise (fun a b => b.winRate ≤ a.winRate) ∧
        ((sortOpenings m).take 10).length ≤ 10 := by
    intro m
    refine ⟨?_, ?_, List.length_take_le 10 _⟩
    · rw [List.forall_iff_forall_mem]
      intro e he
      exact sortOpenings_mem_total (List.take_subset 10 _ he)
    · exact List.Pairwise.sublist (List.take_sublist 10 _) (pairwise_sortByWinRateDesc _)
  exact ⟨key _, key _⟩

theorem recordOutcome_total_eq {s : Stats}
    (h : s.total = s.wins + s.losses + s.draws) (o : Outcome) :
    (recordOutcome s o).total =
      (recordOutcome s o).wins + (recordOutcome s o).losses + (recordOutcome s o).draws := by
  cases o <;> simp [recordOutcome] <;> omega

theorem bumpStats_total_eq {m : List (String × Stats)}
    (h : ∀ p ∈ m, p.2.total = p.2.wins + p.2.losses + p.2.draws)
    (name : String) (o : Outcome) :
    ∀ p ∈ bumpStats m name o, p.2.total = p.2.wins + p.2.losses + p.2.draws := by
  induction m with
  | nil =>
    intro p hp
    simp only [bumpStats, List.mem_singleton] at hp
    subst hp
    exact recordOutcome_total_eq (by simp [initialStats]) o
  | cons q rest ih =>
    intro p hp
    rcases q with ⟨k, s⟩
    simp only [bumpStats] at hp
    by_cases hk : k = name
    · rw [if_pos hk] at hp
      rcases List.mem_cons.mp hp with rfl | hp
      · exact recordOutcome_total_eq (h (k, s) (List.mem_cons_self _ _)) o
      · exact h p (List.mem_cons_of_mem _ hp)
    · rw [if_neg hk] at hp
      rcases List.mem_cons.mp hp with rfl | hp
      · exact h (k, s) (List.mem_cons_self _ _)
      · exact ih (fun q hq => h q (List.mem_cons_of_mem _ hq)) p hp

theorem analyzeStep_total_eq (username : String) {acc : OpeningStats}
    (h : ∀ c, ∀ p ∈ statsAt acc c, p.2.total = p.2.wins + p.2.losses + p.2.draws)
    (g : GameWithOpening) :
    ∀ c, ∀ p ∈ statsAt (analyzeStep username acc g) c,
      p.2.total = p.2.wins + p.2.losses + p.2.draws := by
  intro c p hp
  rw [analyzeStep] at hp
  cases hop : g.opening with
  | none =>
    rw [hop] at hp
    exact h c p hp
  | some op =>
    rw [hop] at hp
    cases hcol : playerColorOf username g.toGame <;> rw [hcol] at hp <;> cases c <;>
      simp only [statsAt] at hp ⊢
    · exact bumpStats_total_eq (h Color.white) op.name _ p hp
    · exact h Color.black p hp
    · exact h Color.white p hp
    · exact bumpStats_total_eq (h Color.black) op.name _ p hp

theorem buildOpeningStats_total_eq (username : String) (games : List GameWithOpening) :
    ∀ c, ∀ p ∈ statsAt (buildOpeningStats username games) c,
      p.2.total = p.2.wins + p.2.losses + p.2.draws := by
  suffices key : ∀ (acc : OpeningStats),
      (∀ c, ∀ p ∈ statsAt acc c, p.2.total = p.2.wins + p.2.losses + p.2.draws) →
      ∀ c, ∀ p ∈ statsAt (games.foldl (analyzeStep username) acc) c,
        p.2.total = p.2.wins + p.2.losses + p.2.draws by
    refine key ⟨[], []⟩ ?_
    intro c p hp
    cases c <;> simp [statsAt] at hp
  induction games with
  | nil =>
    intro acc hacc
    exact hacc
  | cons g gs ih =>
    intro acc hacc
    exact ih _ (analyzeStep_total_eq username hacc g)

/-- C3: after processing any prefix of the games (hence also after the
whole list and after each individual game), every `Stats` accumulator
satisfies `total = wins + losses + draws`. -/
theorem stats_total_invariant (username : String) (games : List GameWithOpening)
    (n : ℕ) :
    ((statsAt (buildOpeningStats username (games.take n)) Color.white).Forall
      (fun p => p.2.total = p.2.wins + p.2.losses + p.2.draws)) ∧
    ((statsAt (buildOpeningStats username (games.take n)) Color.black).Forall
      (fun p => p.2.total = p.2.wins + p.2.losses + p.2.draws)) ∧
    (∀ (s : Stats) (o : Outcome),
      (recordOutcome s o).total = s.total + 1 ∧
      (recordOutcome s o).wins + (recordOutcome s o).losses + (recordOutcome s o).draws
        = s.wins + s.losses + s.draws + 1) := by
  refine ⟨?_, ?_, ?_⟩
  · rw [List.forall_iff_forall_mem]
    exact buildOpeningStats_total_eq username (games.take n) _
  · rw [List.forall_iff_forall_mem]
    exact buildOpeningStats_total_eq username (games.take n) _
  · intro s o
    cases o <;> simp [recordOutcome] <;> omega

/-- C4: the analyzed player's color is white exactly when the white
side's username matches the handle case-insensitively (black in every
other case, with no membership check), and the outcome bucket is draw
exactly when the two sides' result strings are equal, win exactly when
they differ and the analyzed side reports the literal `"win"`, and loss
in every remaining case. -/
theorem counted_game_classification (username : String) (g : Game) :
    (playerColorOf username g = Color.white ↔
      jsToLower g.white.username = jsToLower username) ∧
    (playerColorOf username g = Color.black ↔
      ¬ jsToLower g.white.username = jsToLower username) ∧
    (outcomeOf username g = Outcome.draw ↔ g.white.result = g.black.result) ∧
    (outcomeOf username g = Outcome.win ↔
      ¬ g.white.result = g.black.result ∧
        (sideOf g (playerColorOf username g)).result = "win") ∧
    (outcomeOf username g = Outcome.loss ↔
      ¬ g.white.result = g.black.result ∧
        ¬ (sideOf g (playerColorOf username g)).result = "win") := by
  have hcolor : playerColorOf username g = Color.white ↔
      jsToLower g.white.username = jsToLower username := by
    rw [playerColorOf]
    by_cases h : jsToLower g.white.username = jsToLower username <;> simp [h]
  have hcolorb : playerColorOf username g = Color.black ↔
      ¬ jsToLower g.white.username = jsToLower username := by
    rw [playerColorOf]
    by_cases h : jsToLower g.white.username = jsToLower username <;> simp [h]
  have hpairres : ((sideOf g (playerColorOf username g)).result =
      (sideOf g (opponentColorOf (playerColorOf username g))).result) ↔
      g.white.result = g.black.result := by
    cases playerColorOf username g
    · simp [sideOf, opponentColorOf]
    · simp [sideOf, opponentColorOf]
      exact eq_comm
  have houtcome : outcomeOf username g =
      (if (sideOf g (playerColorOf username g)).result =
          (sideOf g (opponentColorOf (playerColorOf username g))).result then Outcome.draw
       else if (sideOf g (playerColorOf username g)).result = "win" then Outcome.win
       else Outcome.loss) := rfl
  refine ⟨hcolor, hcolorb, ?_, ?_, ?_⟩ <;> rw [houtcome]
  · by_cases h1 : (sideOf g (playerColorOf username g)).result =
        (sideOf g (opponentColorOf (playerColorOf username g))).result
    · simp [h1, hpairres.mp h1]
    · have h2 : ¬ g.white.result = g.black.result := fun hc => h1 (hpairres.mpr hc)
      by_cases h3 : (sideOf g (playerColorOf username g)).result = "win"
      · have h4 : ¬ "win" = (sideOf g (opponentColorOf (playerColorOf username g))).result :=
          fun hc => h1 (h3.trans hc)
        simp [h1, h2, h3, h4]
      · simp [h1, h2, h3]
  · by_cases h1 : (sideOf g (playerColorOf username g)).result =
        (sideOf g (opponentColorOf (playerColorOf username g))).result
    · simp [h1, hpairres.mp h1]
    · have h2 : ¬ g.white.result = g.black.result := fun hc => h1 (hpairres.mpr hc)
      by_cases h3 : (sideOf g (playerColorOf username g)).result = "win"
      · have h4 : ¬ "win" = (sideOf g (opponentColorOf (playerColorOf username g))).result :=
          fun hc => h1 (h3.trans hc)
        simp [h1, h2, h3, h4]
      · simp [h1, h2, h3]
  · by_cases h1 : (sideOf g (playerColorOf username g)).result =
        (sideOf g (opponentColorOf (playerColorOf username g))).result
    · simp [h1, hpairres.mp h1]
    · have h2 : ¬ g.white.result = g.black.result := fun hc => h1 (hpairres.mpr hc)
      by_cases h3 : (sideOf g (playerColorOf username g)).result = "win"
      · have h4 : ¬ "win" = (sideOf g (opponentColorOf (playerColorOf username g))).result :=
          fun hc => h1 (h3.trans hc)
        simp [h1, h2, h3, h4]
      · simp [h1, h2, h3]

/-- The body of `processRows` for one raw TSV row: destructure the
tab-separated fields, replay the move text, build the concatenated
UCI move encoding, and take the EPD of the final FEN. -/
def processRow (engine : ChessEngine) (row : String) : OpeningData :=
  let fields := jsSplit '\t' row
  let eco := fields.getD 0 ""
  let name := fields.getD 1 ""
  let pgn := fields.getD 2 ""
  let uci := (engine.history pgn).foldl
    (fun acc move =>
      acc ++ move.fromSq ++ move.toSq ++
        (match move.promotion with
         | some p => p
         | none => "")) ""
  ⟨eco, name, pgn, epdOfFen (engine.fen pgn), uci⟩

theorem splitCh_ne_nil (sep : Char) (l : List Char) : splitCh sep l ≠ [] := by
  induction l with
  | nil => simp [splitCh]
  | cons c cs ih =>
    by_cases h : c = sep
    · simp [splitCh, h]
    · simp only [splitCh, if_neg h]
      cases hs : splitCh sep cs with
      | nil => simp
      | cons p ps => simp

theorem not_mem_of_mem_splitCh (sep : Char) (l : List Char) :
    ∀ p ∈ splitCh sep l, sep ∉ p := by
  induction l with
  | nil =>
    intro p hp
    simp [splitCh] at hp
    simp [hp]
  | cons c cs ih =>
    intro p hp
    by_cases h : c = sep
    · simp only [splitCh, if_pos h] at hp
      rcases List.mem_cons.mp hp with rfl | hp
      · simp
      · exact ih p hp
    · simp only [splitCh, if_neg h] at hp
      cases hs : splitCh sep cs with
      | nil => exact absurd hs (splitCh_ne_nil sep cs)
      | cons q qs =>
        rw [hs] at hp
        rcases List.mem_cons.mp hp with rfl | hp
        · intro hmem
          rcases List.mem_cons.mp hmem with rfl | hmem
          · exact h rfl
          · exact ih q (hs ▸ List.mem_cons_self q qs) hmem
        · exact ih p (hs ▸ List.mem_cons_of_mem q hp)

theorem splitCh_no_sep (sep : Char) (p : List Char) (hp : sep ∉ p) :
    splitCh sep p = [p] := by
  induction p with
  | nil => rfl
  | cons c cs ih =>
    have hc : ¬ c = sep := fun h => hp (h ▸ List.mem_cons_self c cs)
    have hcs : sep ∉ cs := fun h => hp (List.mem_cons_of_mem c h)
    simp only [splitCh, if_neg hc, ih hcs]

theorem splitCh_append_sep (sep : Char) (p rest : List Char) (hp : sep ∉ p) :
    splitCh sep (p ++ sep :: rest) = p :: splitCh sep rest := by
  induction p with
  | nil => simp [splitCh]
  | cons c cs ih =>
    have hc : ¬ c = sep := fun h => hp (h ▸ List.mem_cons_self c cs)
    have hcs : sep ∉ cs := fun h => hp (List.mem_cons_of_mem c h)
    have hstep : splitCh sep ((c :: cs) ++ sep :: rest) =
        match splitCh sep (cs ++ sep :: rest) with
        | [] => [[c]]
        | p :: ps => (c :: p) :: ps := by
      simp only [List.cons_append, splitCh, if_neg hc]
      rfl
    rw [hstep, ih hcs]

theorem splitCh_joinCh (sep : Char) (pss : List (List Char)) (h0 : pss ≠ [])
    (h : ∀ p ∈ pss, sep ∉ p) : splitCh sep (joinCh sep pss) = pss := by
  induction pss with
  | nil => exact absurd rfl h0
  | cons p pss ih =>
    cases pss with
    | nil =>
      show splitCh sep (joinCh sep [p]) = [p]
      rw [joinCh]
      exact splitCh_no_sep sep p (h p (List.mem_cons_self _ _))
    | cons q qss =>
      show splitCh sep (p ++ sep :: joinCh sep (q :: qss)) = p :: q :: qss
      rw [splitCh_append_sep sep p _ (h p (List.mem_cons_self _ _))]
      rw [ih (by simp) (fun r hr => h r (List.mem_cons_of_mem p hr))]

theorem mk_data_eq (s : String) : String.mk s.data = s := by
  cases s
  rfl

theorem not_mem_data_of_mem_jsSplit (sep : Char) (t : String) :
    ∀ s ∈ jsSplit sep t, sep ∉ s.data := by
  intro s hs
  rcases List.mem_map.mp hs with ⟨p, hp, rfl⟩
  exact not_mem_of_mem_splitCh sep t.data p hp

theorem jsSplit_jsJoin (sep : Char) (parts : List String) (h0 : parts ≠ [])
    (h : ∀ s ∈ parts, sep ∉ s.data) : jsSplit sep (jsJoin sep parts) = parts := by
  rw [jsSplit, jsJoin]
  have hdata : (String.mk (joinCh sep (parts.map String.data))).data =
      joinCh sep (parts.map String.data) := rfl
  rw [hdata]
  rw [splitCh_joinCh sep (parts.map String.data) (by simpa using h0) ?hmem]
  · rw [List.map_map]
    have : (String.mk ∘ String.data) = id := by
      funext s
      exact mk_data_eq s
    rw [this, List.map_id]
  · intro p hp
    rcases List.mem_map.mp hp with ⟨s, hs, rfl⟩
    exact h s hs

/-- C5: the `OpeningData` built from a TSV row keeps the row's eco,
name and move-text fields unchanged, and its EPD key consists of
exactly 4 space-separated fields whenever the replay engine's final
FEN has at least 4 space-separated fields (a standard FEN has 6). -/
theorem processRow_fields (engine : ChessEngine) (row : String)
    (hfen : 4 ≤ (jsSplit ' ' (engine.fen ((jsSplit '\t' row).getD 2 ""))).length) :
    (processRow engine row).eco = (jsSplit '\t' row).getD 0 "" ∧
    (processRow engine row).name = (jsSplit '\t' row).getD 1 "" ∧
    (processRow engine row).pgn = (jsSplit '\t' row).getD 2 "" ∧
    (jsSplit ' ' (processRow engine row).epd).length = 4 := by
  refine ⟨rfl, rfl, rfl, ?_⟩
  have hepd : (processRow engine row).epd =
      jsJoin ' ' ((jsSplit ' ' (engine.fen ((jsSplit '\t' row).getD 2 ""))).take 4) := rfl
  rw [hepd]
  set fen := engine.fen ((jsSplit '\t' row).getD 2 "") with hfendef
  have hlen : ((jsSplit ' ' fen).take 4).length = 4 := by
    rw [List.length_take]
    omega
  have h0 : (jsSplit ' ' fen).take 4 ≠ [] := by
    intro hc
    rw [hc] at hlen
    simp at hlen
  have hsep : ∀ s ∈ (jsSplit ' ' fen).take 4, ' ' ∉ s.data := by
    intro s hs
    exact not_mem_data_of_mem_jsSplit ' ' fen s (List.take_subset 4 _ hs)
  rw [jsSplit_jsJoin ' ' _ h0 hsep]
  exact hlen

/-- Witness for `processRow_fields` at a concrete engine and row. -/
theorem processRow_fields_witness :
    (4 ≤ (jsSplit ' '
        ((ChessEngine.mk (fun _ => [])
            (fun _ => "rnbqkbnr/pppppppp/8/8/8/8/PPPPPPPP/RNBQKBNR w KQkq - 0 1")).fen
          ((jsSplit '\t' "A00\tTest Opening\t1. a3").getD 2 ""))).length) ∧
    (jsSplit ' '
      (processRow
        (ChessEngine.mk (fun _ => [])
          (fun _ => "rnbqkbnr/pppppppp/8/8/8/8/PPPPPPPP/RNBQKBNR w KQkq - 0 1"))
        "A00\tTest Opening\t1. a3").epd).length = 4 :=
  ⟨by decide, (processRow_fields
    (ChessEngine.mk (fun _ => [])
      (fun _ => "rnbqkbnr/pppppppp/8/8/8/8/PPPPPPPP/RNBQKBNR w KQkq - 0 1"))
    "A00\tTest Opening\t1. a3" (by decide)).2.2.2⟩

/-- `epdLookup[openingData.epd] = openingData`: JavaScript property
assignment on a string-keyed record, modelled on an insertion-ordered
association list — an existing key is overwritten in place, a new key
is appended. -/
def epdInsert (m : List (String × OpeningData)) (r : OpeningData) :
    List (String × OpeningData) :=
  match m with
  | [] => [(r.epd, r)]
  | (k, v) :: rest =>
    if k = r.epd then (k, r) :: rest
    else (k, v) :: epdInsert rest r

/-- Property read `m[k]` on the association-list record. -/
def lookupEpd (m : List (String × OpeningData)) (k : String) : Option OpeningData :=
  match m with
  | [] => none
  | (k', v) :: rest => if k' = k then some v else lookupEpd rest k

/-- `if (!lookup[key]) lookup[key] = []; lookup[key].push(r)`: append
`r` to the bucket of `key`, creating the bucket (at the end of the
property order) on first encounter. -/
def groupInsert (m : List (String × List OpeningData)) (key : String)
    (r : OpeningData) : List (String × List OpeningData) :=
  match m with
  | [] => [(key, [r])]
  | (k, rs) :: rest =>
    if k = key then (k, rs ++ [r]) :: rest
    else (k, rs) :: groupInsert rest key r

/-- `eco.charAt(0).toUpperCase()`. -/
def categoryOf (eco : String) : String :=
  jsToUpper (charAt0 eco)

/-- The four in-memory indexes built by `main` in the data-generation
script. -/
structure Lookups where
  epdLookup : List (String × OpeningData)
  ecoLookup : List (String × List OpeningData)
  categoryLookup : List (String × List OpeningData)
  openingList : List OpeningData

/-- The `processRows` callback of `main`: update all four indexes with
one record. -/
def foldRecord (st : Lookups) (r : OpeningData) : Lookups :=
  { epdLookup := epdInsert st.epdLookup r
    ecoLookup := groupInsert st.ecoLookup r.eco r
    categoryLookup := groupInsert st.categoryLookup (categoryOf r.eco) r
    openingList := st.openingList ++ [r] }

/-- The whole index-building pass of `main` over the processed rows. -/
def buildLookups (recs : List OpeningData) : Lookups :=
  recs.foldl foldRecord ⟨[], [], [], []⟩

/-- A JSON value, for the generated files and the fetched HTTP
bodies.  Objects are insertion-ordered key/value lists. -/
inductive Json where
  | null : Json
  | bool : Bool → Json
  | num : ℚ → Json
  | str : String → Json
  | arr : List Json → Json
  | obj : List (String × Json) → Json

/-- JSON serialization of one `OpeningData` record (object-literal key
order). -/
def OpeningData.toJson (r : OpeningData) : Json :=
  .obj [("eco", .str r.eco), ("name", .str r.name), ("pgn", .str r.pgn),
    ("epd", .str r.epd), ("uci", .str r.uci)]

/-- JSON serialization of a record of record-lists (`ecoLookup`,
`categoryLookup`). -/
def jsonOfGroups (m : List (String × List OpeningData)) : Json :=
  .obj (m.map (fun p => (p.1, .arr (p.2.map OpeningData.toJson))))

/-- The five files written by `main`, in dispatch order, with their
JSON contents.  The fifth is `eco-list.json` holding
`Object.keys(ecoLookup)`. -/
def generatedOutputs (recs : List OpeningData) : List (String × Json) :=
  [("opening-list.json", .arr ((buildLookups recs).openingList.map OpeningData.toJson)),
    ("eco-lookup.json", jsonOfGroups (buildLookups recs).ecoLookup),
    ("category-lookup.json", jsonOfGroups (buildLookups recs).categoryLookup),
    ("epd-lookup.json", .obj ((buildLookups recs).epdLookup.map
      (fun p => (p.1, OpeningData.toJson p.2)))),
    ("eco-list.json", .arr (((buildLookups recs).ecoLookup.map Prod.fst).map Json.str))]

theorem lookupEpd_epdInsert (m : List (String × OpeningData)) (r : OpeningData)
    (k : String) :
    lookupEpd (epdInsert m r) k = if r.epd = k then some r else lookupEpd m k := by
  induction m with
  | nil =>
    simp only [epdInsert, lookupEpd]
  | cons q rest ih =>
    rcases q with ⟨k', v⟩
    by_cases h1 : k' = r.epd
    · subst h1
      simp only [epdInsert, if_pos rfl, lookupEpd]
      by_cases h2 : r.epd = k <;> simp [h2]
    · simp only [epdInsert, if_neg h1, lookupEpd]
      by_cases h2 : k' = k
      · rw [if_pos h2, if_neg (fun hc => h1 (h2.trans hc.symm)), if_pos h2]
      · rw [if_neg h2, if_neg h2]
        exact ih

theorem buildLookups_epd_foldl (recs : List OpeningData) (st : Lookups) :
    (recs.foldl foldRecord st).epdLookup = recs.foldl epdInsert st.epdLookup := by
  induction recs generalizing st with
  | nil => rfl
  | cons r rs ih => exact ih (foldRecord st r)

/-- C6: the position-code index built by the data-generation script is
last-write-wins — it maps each EPD code to the last record (in input
order) bearing that code, and codes borne by no record to nothing. -/
theorem epdLookup_last_write_wins (recs : List OpeningData) (k : String) :
    lookupEpd (buildLookups recs).epdLookup k =
      (recs.filter (fun r => decide (r.epd = k))).getLast? := by
  rw [buildLookups, buildLookups_epd_foldl]
  induction recs using List.reverseRecOn with
  | nil => rfl
  | append_singleton init r ih =>
    rw [List.foldl_append, List.filter_append]
    simp only [List.foldl_cons, List.foldl_nil]
    rw [lookupEpd_epdInsert, List.getLast?_append]
    by_cases h : r.epd = k
    · rw [if_pos h]
      have hfil : List.filter (fun r => decide (r.epd = k)) [r] = [r] := by
        simp [h]
      rw [hfil]
      rfl
    · rw [if_neg h]
      have hfil : List.filter (fun r => decide (r.epd = k)) [r] = [] := by
        simp [h]
      rw [hfil]
      exact ih

/-- The distinct elements of a list in first-occurrence order: the key
list JavaScript `Object.keys` reports for an insertion-ordered record
with non-numeric string keys. -/
def distinctKeys (l : List String) : List String :=
  l.foldl (fun acc e => if e ∈ acc then acc else acc ++ [e]) []

/-- The category letters under which records were indexed: the keys of
`categoryLookup`. -/
def categoryKeys (recs : List OpeningData) : List String :=
  (buildLookups recs).categoryLookup.map Prod.fst

theorem map_fst_groupInsert (m : List (String × List OpeningData)) (key : String)
    (r : OpeningData) :
    (groupInsert m key r).map Prod.fst =
      if key ∈ m.map Prod.fst then m.map Prod.fst else m.map Prod.fst ++ [key] := by
  induction m with
  | nil => simp [groupInsert]
  | cons q rest ih =>
    rcases q with ⟨k, rs⟩
    by_cases h : k = key
    · subst h
      simp [groupInsert]
    · simp only [groupInsert, if_neg h, List.map_cons, ih]
      by_cases h2 : key ∈ rest.map Prod.fst
      · rw [if_pos h2, if_pos (List.mem_cons_of_mem _ h2)]
      · rw [if_neg h2, if_neg ?hnot]
        case hnot =>
          intro hc
          rcases List.mem_cons.mp hc with hc | hc
          · exact h hc.symm
          · exact h2 hc
        simp

theorem buildLookups_ecoKeys (recs : List OpeningData) :
    (buildLookups recs).ecoLookup.map Prod.fst =
      distinctKeys (recs.map OpeningData.eco) := by
  suffices key : ∀ st : Lookups,
      (recs.foldl foldRecord st).ecoLookup.map Prod.fst =
        (recs.map OpeningData.eco).foldl
          (fun acc e => if e ∈ acc then acc else acc ++ [e])
          (st.ecoLookup.map Prod.fst) by
    exact key ⟨[], [], [], []⟩
  induction recs with
  | nil =>
    intro st
    rfl
  | cons r rs ih =>
    intro st
    simp only [List.foldl_cons, List.map_cons]
    rw [ih (foldRecord st r)]
    congr 1
    exact map_fst_groupInsert st.ecoLookup r.eco r

/-- C7 counterexample: for a single record with ECO code "A00" the
fifth generated file (`eco-list.json`) holds the ECO-code key "A00",
not the category letter "A" — the claim that it contains the category
keys fails. -/
theorem eco_list_not_category_keys :
    ¬ ((generatedOutputs [⟨"A00", "Test", "1. a3", "k", "a2a3"⟩]).getD 4
        ("", Json.null)).2 =
      Json.arr ((categoryKeys [⟨"A00", "Test", "1. a3", "k", "a2a3"⟩]).map Json.str) := by
  intro h
  have e1 : ((generatedOutputs [⟨"A00", "Test", "1. a3", "k", "a2a3"⟩]).getD 4
      ("", Json.null)).2 = Json.arr [Json.str "A00"] := rfl
  have e2 : Json.arr ((categoryKeys [⟨"A00", "Test", "1. a3", "k", "a2a3"⟩]).map
      Json.str) = Json.arr [Json.str "A"] := rfl
  rw [e1, e2] at h
  injection h with h2
  injection h2 with h3 h4
  injection h3 with h5
  exact absurd h5 (by decide)

/-- C7 amended: the fifth generated output file is `eco-list.json` and
contains the distinct ECO codes under which records were indexed (the
keys of the ECO index, in first-occurrence order), not the category
letters. -/
theorem eco_list_output (recs : List OpeningData) :
    (generatedOutputs recs).getD 4 ("", Json.null) =
      ("eco-list.json",
        Json.arr ((distinctKeys (recs.map OpeningData.eco)).map Json.str)) := by
  have e : (generatedOutputs recs).getD 4 ("", Json.null) =
      ("eco-list.json",
        Json.arr (((buildLookups recs).ecoLookup.map Prod.fst).map Json.str)) := rfl
  rw [e, buildLookups_ecoKeys]

/-- Sequential collection of fallible results, in input order: the
embedding of `Promise.all` over a mapped list (results are positional,
the first failure propagates) and of element-wise schema validation. -/
def traverseExcept {α β : Type} (f : α → Except String β) :
    List α → Except String (List β)
  | [] => .ok []
  | x :: xs => do
    let y ← f x
    let ys ← traverseExcept f xs
    pure (y :: ys)

theorem traverseExcept_error {α β : Type} (f : α → Except String β)
    (pre : List α) (c0 : α) (post : List α) (msg : String)
    (hpre : ∀ c ∈ pre, ∃ v, f c = .ok v) (h0 : f c0 = .error msg) :
    traverseExcept f (pre ++ c0 :: post) = .error msg := by
  induction pre with
  | nil =>
    rw [List.nil_append, traverseExcept, h0]
    rfl
  | cons p pre' ih =>
    rcases hpre p (List.mem_cons_self _ _) with ⟨v, hv⟩
    rw [List.cons_append, traverseExcept, hv,
      ih (fun c hc => hpre c (List.mem_cons_of_mem _ hc))]
    rfl

theorem traverseExcept_ok {α β : Type} (f : α → Except String β) (g : α → β)
    (l : List α) (h : ∀ c ∈ l, f c = .ok (g c)) :
    traverseExcept f l = .ok (l.map g) := by
  induction l with
  | nil => rfl
  | cons x xs ih =>
    rw [traverseExcept, h x (List.mem_cons_self _ _),
      ih (fun c hc => h c (List.mem_cons_of_mem _ hc))]
    rfl

theorem traverseExcept_congr {α β : Type} (f g : α → Except String β)
    (l : List α) (h : ∀ a ∈ l, f a = g a) :
    traverseExcept f l = traverseExcept g l := by
  induction l with
  | nil => rfl
  | cons x xs ih =>
    rw [traverseExcept, traverseExcept, h x (List.mem_cons_self _ _),
      ih (fun a ha => h a (List.mem_cons_of_mem _ ha))]

/-- An HTTP response as read by `fetchOpenings`: status flag, status
text, and the text body (`res.text()`). -/
structure TextResponse where
  ok : Bool
  statusText : String
  text : String

/-- The five fixed category identifiers of the openings dataset. -/
def categories : List String := ["a", "b", "c", "d", "e"]

/-- One category fetch: a non-success status throws
`Failed to fetch category ⟨category⟩: ⟨statusText⟩`; on success the
body is split into lines and the header line discarded
(`.split("\n").slice(1)`). -/
def fetchCategory (response : TextResponse) (category : String) :
    Except String (List String) :=
  if response.ok = false then
    .error ("Failed to fetch category " ++ category ++ ": " ++ response.statusText)
  else
    .ok ((jsSplit '\n' response.text).drop 1)

/-- `fetchOpenings`: fetch the five categories (results in category
order), flatten, and drop blank rows (`filter(Boolean)`). -/
def fetchOpenings (responses : String → TextResponse) : Except String (List String) := do
  let rowLists ← traverseExcept (fun c => fetchCategory (responses c) c) categories
  pure (rowLists.flatten.filter (fun row => decide (¬ row = "")))

/-- C8: if some category's response has a non-success status,
`fetchOpenings` fails with the descriptive error naming the first such
category and returns no partial row list; if every category succeeds,
it returns the concatenation in category order of each category's rows
with the header line discarded and blank lines filtered out. -/
theorem fetchOpenings_error_or_rows (responses : String → TextResponse) :
    (∀ (c0 : String) (pre post : List String), categories = pre ++ c0 :: post →
      (∀ c ∈ pre, (responses c).ok = true) → (responses c0).ok = false →
      fetchOpenings responses =
        .error ("Failed to fetch category " ++ c0 ++ ": " ++ (responses c0).statusText)) ∧
    ((∀ c ∈ categories, (responses c).ok = true) →
      fetchOpenings responses =
        .ok (((categories.map
            (fun c => (jsSplit '\n' (responses c).text).drop 1)).flatten).filter
          (fun row => decide (¬ row = "")))) := by
  constructor
  · intro c0 pre post hsplit hpre h0
    rw [fetchOpenings, hsplit]
    rw [traverseExcept_error (fun c => fetchCategory (responses c) c) pre c0 post _
      ?_ ?_]
    · rfl
    · intro c hc
      refine ⟨(jsSplit '\n' (responses c).text).drop 1, ?_⟩
      simp [fetchCategory, hpre c hc]
    · simp [fetchCategory, h0]
  · intro hok
    rw [fetchOpenings]
    rw [traverseExcept_ok (fun c => fetchCategory (responses c) c)
      (fun c => (jsSplit '\n' (responses c).text).drop 1) categories ?_]
    · rfl
    · intro c hc
      simp [fetchCategory, hok c hc]

/-- A fixed response environment exercising both branches of the
`fetchOpenings` theorem: category "b" fails, the others succeed. -/
def sampleTextResponses (which : Bool) : String → TextResponse :=
  fun c =>
    if which && (c == "b") then ⟨false, "Not Found", ""⟩
    else ⟨true, "OK", "eco\tname\tpgn\nrow1\n\nrow2"⟩

/-- Witness for `fetchOpenings_error_or_rows` at concrete response
environments. -/
theorem fetchOpenings_error_or_rows_witness :
    fetchOpenings (sampleTextResponses true) =
      .error "Failed to fetch category b: Not Found" ∧
    fetchOpenings (sampleTextResponses false) =
      .ok ["row1", "row2", "row1", "row2", "row1", "row2", "row1", "row2",
        "row1", "row2"] := by
  constructor
  · exact (fetchOpenings_error_or_rows (sampleTextResponses true)).1 "b" ["a"]
      ["c", "d", "e"] rfl (by decide) (by decide)
  · exact ((fetchOpenings_error_or_rows (sampleTextResponses false)).2
      (by decide)).trans (by rfl)

/-- An HTTP response as read by `fetchGames`: status flag, status text,
and the result of `res.json()` (an error models an unparsable body;
the status fields are carried but — as the claims note — never read by
`fetchGames`). -/
structure JsonResponse where
  ok : Bool
  statusText : String
  jsonBody : Except String Json

/-- Property read on a parsed JSON object (duplicate keys resolve to
the last occurrence, as `JSON.parse` does). -/
def jlookup (fields : List (String × Json)) (key : String) : Option Json :=
  ((fields.filter (fun p => decide (p.1 = key))).getLast?).map Prod.snd

/-- `z.string()` on a (possibly missing) field. -/
def asString : Option Json → Except String String
  | some (.str s) => .ok s
  | _ => .error "Expected string"

/-- `z.number()` on a (possibly missing) field. -/
def asNumber : Option Json → Except String ℚ
  | some (.num q) => .ok q
  | _ => .error "Expected number"

/-- `z.boolean()` on a (possibly missing) field. -/
def asBool : Option Json → Except String Bool
  | some (.bool b) => .ok b
  | _ => .error "Expected boolean"

/-- `z.string().optional()`: a missing field is accepted as absent, a
present field must be a string. -/
def asOptionalString : Option Json → Except String (Option String)
  | none => .ok none
  | some (.str s) => .ok (some s)
  | some _ => .error "Expected string"

/-- `playerSchema.parse`. -/
def parsePlayer (j : Json) : Except String Player :=
  match j with
  | .obj fields => do
    let rating ← asNumber (jlookup fields "rating")
    let result ← asString (jlookup fields "result")
    let atId ← asString (jlookup fields "@id")
    let username ← asString (jlookup fields "username")
    let uuid ← asString (jlookup fields "uuid")
    pure ⟨rating, result, atId, username, uuid⟩
  | _ => .error "Expected object"

/-- A required player-shaped field. -/
def asPlayer : Option Json → Except String Player
  | some j => parsePlayer j
  | none => .error "Expected object"

/-- `accuraciesSchema.parse` (an optional object of two numbers). -/
def parseAccuracies : Option Json → Except String (Option Accuracies)
  | none => .ok none
  | some (.obj fields) => do
    let w ← asNumber (jlookup fields "white")
    let b ← asNumber (jlookup fields "black")
    pure (some ⟨w, b⟩)
  | some _ => .error "Expected object"

/-- `gameSchema.parse`. -/
def parseGame (j : Json) : Except String Game :=
  match j with
  | .obj fields => do
    let url ← asString (jlookup fields "url")
    let pgn ← asString (jlookup fields "pgn")
    let time_control ← asString (jlookup fields "time_control")
    let end_time ← asNumber (jlookup fields "end_time")
    let rated ← asBool (jlookup fields "rated")
    let tcn ← asOptionalString (jlookup fields "tcn")
    let uuid ← asString (jlookup fields "uuid")
    let initial_setup ← asString (jlookup fields "initial_setup")
    let fen ← asString (jlookup fields "fen")
    let time_class ← asString (jlookup fields "time_class")
    let rules ← asString (jlookup fields "rules")
    let white ← asPlayer (jlookup fields "white")
    let black ← asPlayer (jlookup fields "black")
    let accuracies ← parseAccuracies (jlookup fields "accuracies")
    pure ⟨url, pgn, time_control, end_time, rated, tcn, uuid, initial_setup,
      fen, time_class, rules, white, black, accuracies⟩
  | _ => .error "Expected object"

/-- `gamesDataSchema.parse`: an object with a `games` array of
game-shaped objects. -/
def parseGamesData (j : Json) : Except String (List Game) :=
  match j with
  | .obj fields =>
    match jlookup fields "games" with
    | some (.arr gs) => traverseExcept parseGame gs
    | _ => .error "Expected games array"
  | _ => .error "Expected object"

/-- `archiveSchema.parse`: an object with an `archives` array of
strings. -/
def parseArchives (j : Json) : Except String (List String) :=
  match j with
  | .obj fields =>
    match jlookup fields "archives" with
    | some (.arr xs) => traverseExcept (fun x => asString (some x)) xs
    | _ => .error "Expected archives array"
  | _ => .error "Expected object"

/-- `archiveList.archives.slice(-6)`: the most recent (last) archives,
all of them when fewer than 6 exist. -/
def recentArchives (archives : List String) : List String :=
  archives.drop (archives.length - 6)

/-- The `gamesData.games.reduce(...)` pass of one archive: keep games
with `rules === "chess"` and attach the identified opening. -/
def attachOpenings (engine : ChessEngine) (lookup : String → Option OpeningData)
    (games : List Game) : List GameWithOpening :=
  games.foldl
    (fun results game =>
      if game.rules = "chess" then
        results ++ [⟨game, identifyOpening engine lookup game.pgn⟩]
      else results) []

/-- The archive-list endpoint URL for a handle. -/
def archivesUrl (username : String) : String :=
  "https://api.chess.com/pub/player/" ++ username ++ "/games/archives"

/-- Fetch and process one monthly archive: `res.json()`, schema
validation, then the filter-and-attach pass.  The response's HTTP
status is never consulted. -/
def processArchive (engine : ChessEngine) (lookup : String → Option OpeningData)
    (http : String → JsonResponse) (url : String) :
    Except String (List GameWithOpening) := do
  let body ← (http url).jsonBody
  let games ← parseGamesData body
  pure (attachOpenings engine lookup games)

/-- `fetchGames`: fetch the archive list, validate it, fetch and
process the last six archives, and flatten the per-archive results in
dispatch order. -/
def fetchGames (engine : ChessEngine) (lookup : String → Option OpeningData)
    (http : String → JsonResponse) (username : String) :
    Except String (List GameWithOpening) := do
  let body ← (http (archivesUrl username)).jsonBody
  let archives ← parseArchives body
  let batches ← traverseExcept (processArchive engine lookup http)
    (recentArchives archives)
  pure batches.flatten

/-- C9: `fetchGames` processes exactly the last `min(n, 6)` archive
URLs; with 6 or fewer archives it processes all of them (no failure,
no padding). -/
theorem fetchGames_last_min_six (engine : ChessEngine)
    (lookup : String → Option OpeningData) (http : String → JsonResponse)
    (username : String) :
    (∀ archives : List String,
      (recentArchives archives).length = min archives.length 6 ∧
      recentArchives archives <:+ archives ∧
      (archives.length ≤ 6 → recentArchives archives = archives)) ∧
    (∀ (j : Json) (archives : List String),
      (http (archivesUrl username)).jsonBody = .ok j →
      parseArchives j = .ok archives →
      archives.length ≤ 6 →
      fetchGames engine lookup http username = (do
        let batches ← traverseExcept (processArchive engine lookup http) archives
        pure batches.flatten)) := by
  have hall : ∀ archives : List String, archives.length ≤ 6 →
      recentArchives archives = archives := by
    intro archives h
    rw [recentArchives, Nat.sub_eq_zero_of_le h, List.drop_zero]
  constructor
  · intro archives
    refine ⟨?_, List.drop_suffix _ _, hall archives⟩
    rw [recentArchives, List.length_drop]
    omega
  · intro j archives hbody hparse hlen
    rw [fetchGames, hbody]
    show (do
      let archives ← parseArchives j
      let batches ← traverseExcept (processArchive engine lookup http)
        (recentArchives archives)
      pure batches.flatten : Except String (List GameWithOpening)) = _
    rw [hparse]
    show (do
      let batches ← traverseExcept (processArchive engine lookup http)
        (recentArchives archives)
      pure batches.flatten : Except String (List GameWithOpening)) = _
    rw [hall archives hlen]

/-- A minimal engine for witnesses: no history, empty FEN. -/
def sampleEngine : ChessEngine := ⟨fun _ => [], fun _ => ""⟩

/-- An empty lookup table for witnesses. -/
def sampleLookup : String → Option OpeningData := fun _ => none

/-- A response environment with one archive containing no games; the
`ok` flag of every response is the given boolean, the bodies do not
depend on it. -/
def sampleHttp (ok : Bool) : String → JsonResponse := fun url =>
  if url = archivesUrl "alice" then
    ⟨ok, "status", .ok (.obj [("archives", .arr [.str "u1"])])⟩
  else
    ⟨ok, "status", .ok (.obj [("games", .arr [])])⟩

/-- Witness for `fetchGames_last_min_six` at a concrete single-archive
environment. -/
theorem fetchGames_last_min_six_witness :
    recentArchives ["u1"] = ["u1"] ∧
    fetchGames sampleEngine sampleLookup (sampleHttp true) "alice" = .ok [] := by
  constructor
  · exact (fetchGames_last_min_six sampleEngine sampleLookup (sampleHttp true)
      "alice").1 ["u1"] |>.2.2 (by decide)
  · exact ((fetchGames_last_min_six sampleEngine sampleLookup (sampleHttp true)
      "alice").2 (.obj [("archives", .arr [.str "u1"])]) ["u1"] rfl rfl
      (by decide)).trans (by rfl)

/-- C10: `fetchGames` never inspects any response's HTTP status — two
response environments whose JSON bodies agree pointwise (but whose
status fields may differ arbitrarily) produce identical results, so
success or failure is determined solely by JSON parsing and schema
validation of the bodies. -/
theorem fetchGames_ignores_status (engine : ChessEngine)
    (lookup : String → Option OpeningData)
    (http http' : String → JsonResponse) (username : String)
    (h : ∀ url, (http url).jsonBody = (http' url).jsonBody) :
    fetchGames engine lookup http username =
      fetchGames engine lookup http' username := by
  have hpa : ∀ url, processArchive engine lookup http url =
      processArchive engine lookup http' url := by
    intro url
    rw [processArchive, processArchive, h url]
  rw [fetchGames, fetchGames, h (archivesUrl username)]
  cases hb : (http' (archivesUrl username)).jsonBody with
  | error e => rfl
  | ok body =>
    show (do
      let archives ← parseArchives body
      let batches ← traverseExcept (processArchive engine lookup http)
        (recentArchives archives)
      pure batches.flatten : Except String (List GameWithOpening)) = (do
      let archives ← parseArchives body
      let batches ← traverseExcept (processArchive engine lookup http')
        (recentArchives archives)
      pure batches.flatten)
    cases hp : parseArchives body with
    | error e => rfl
    | ok archives =>
      show (do
        let batches ← traverseExcept (processArchive engine lookup http)
          (recentArchives archives)
        pure batches.flatten : Except String (List GameWithOpening)) = (do
        let batches ← traverseExcept (processArchive engine lookup http')
          (recentArchives archives)
        pure batches.flatten)
      rw [traverseExcept_congr _ _ _ (fun url _ => hpa url)]

/-- Witness for `fetchGames_ignores_status`: the same bodies behind a
success and a non-success status give the same (successful) result. -/
theorem fetchGames_ignores_status_witness :
    fetchGames sampleEngine sampleLookup (sampleHttp true) "alice" =
      fetchGames sampleEngine sampleLookup (sampleHttp false) "alice" ∧
    fetchGames sampleEngine sampleLookup (sampleHttp false) "alice" = .ok [] := by
  constructor
  · exact fetchGames_ignores_status sampleEngine sampleLookup (sampleHttp true)
      (sampleHttp false) "alice" (fun url => by
        rw [sampleHttp, sampleHttp]
        by_cases hu : url = archivesUrl "alice" <;> simp [hu])
  · rfl

/-- Witness for `identifyOpening_backward_scan`: the empty move text
yields no match. -/
theorem identifyOpening_backward_scan_witness :
    identifyOpening sampleEngine sampleLookup "" = none :=
  (identifyOpening_backward_scan sampleEngine sampleLookup "1. e4").1

/-- Witness for `analyzeGames_filter_sort_top10` at an empty game
list. -/
theorem analyzeGames_filter_sort_top10_witness :
    (analyzeGames "alice" []).white.Forall (fun e => 15 < e.stats.total) ∧
    (analyzeGames "alice" []).white.length ≤ 10 :=
  ⟨(analyzeGames_filter_sort_top10 "alice" []).1.1,
    (analyzeGames_filter_sort_top10 "alice" []).1.2.2⟩

/-- Witness for `stats_total_invariant` at an empty game list. -/
theorem stats_total_invariant_witness :
    (statsAt (buildOpeningStats "alice" (List.take 0 [])) Color.white).Forall
      (fun p => p.2.total = p.2.wins + p.2.losses + p.2.draws) ∧
    (recordOutcome initialStats Outcome.win).total = initialStats.total + 1 :=
  ⟨(stats_total_invariant "alice" [] 0).1,
    ((stats_total_invariant "alice" [] 0).2.2 initialStats Outcome.win).1⟩

/-- A concrete player for witnesses. -/
def samplePlayer (name : String) : Player :=
  ⟨1000, "win", "id", name, "uuid"⟩

/-- A concrete standard-chess game for witnesses: "ALICE" plays white,
both sides report "win" (an impossible but well-typed record exercising
the draw bucket). -/
def sampleGame : Game :=
  ⟨"url", "1. e4", "600", 0, true, none, "uuid", "setup", "fen", "rapid",
    "chess", samplePlayer "ALICE", samplePlayer "bob", none⟩

/-- Witness for `counted_game_classification`: a case-insensitive white
match is classified white, and equal result strings land in the draw
bucket. -/
theorem counted_game_classification_witness :
    playerColorOf "Alice" sampleGame = Color.white ∧
    outcomeOf "Alice" sampleGame = Outcome.draw :=
  ⟨(counted_game_classification "Alice" sampleGame).1.mpr (by decide),
    (counted_game_classification "Alice" sampleGame).2.2.1.mpr (by decide)⟩

/-- Witness for `epdLookup_last_write_wins`: of two records sharing the
EPD code "P", the later one wins. -/
theorem epdLookup_last_write_wins_witness :
    lookupEpd (buildLookups [⟨"A00", "X", "p", "P", "u"⟩,
      ⟨"A01", "Y", "q", "P", "v"⟩]).epdLookup "P" =
      some ⟨"A01", "Y", "q", "P", "v"⟩ :=
  (epdLookup_last_write_wins [⟨"A00", "X", "p", "P", "u"⟩,
    ⟨"A01", "Y", "q", "P", "v"⟩] "P").trans (by rfl)

/-- Witness for `eco_list_output` at a single record. -/
theorem eco_list_output_witness :
    (generatedOutputs [⟨"A00", "Test", "1. a3", "k", "a2a3"⟩]).getD 4
      ("", Json.null) = ("eco-list.json", Json.arr [Json.str "A00"]) :=
  (eco_list_output [⟨"A00", "Test", "1. a3", "k", "a2a3"⟩]).trans (by rfl)
